import Mathlib

/-!
# Verification of the acemcp indexing/search core (src/src/rust/mcp/tools/acemcp/mcp.rs)

Shallow embedding of the pure logic of the indexing engine:
content chunking (`split_content`), content addressing (`sha256_hex`,
a full SHA-256 over the incremental-update interface used by the code),
exclusion matching (`should_exclude` over a glob matcher), retry policy
(`retry_request`), the persisted status taxonomy
(`get_initial_index_state`), the search-time hint policy of
`search_context`, and the `update_index` run pipeline.

Strings are modelled as `String` where the Rust code does only equality /
affix tests, and as `List Char` where the proofs walk the characters.
File-system and network effects are passed in explicitly: the collected
blobs, the per-batch upload responses and the clock are parameters; the
persisted registry (projects.json) is an association list and the status
record a structure, with the sequence of status writes returned so that
"no state mutation" is observable.  `HashMap`/`HashSet` iteration order in
the Rust code is unspecified; the model fixes a deterministic order, which
is irrelevant to the (membership-level) claims proved here.
-/

namespace Acemcp

/-- A unit of text submitted for indexing: `BlobItem { path, content }`. -/
structure BlobItem where
  path : String
  content : List Char
deriving DecidableEq

/-- Model of Rust `content.split_inclusive('\n')`: split after every
newline, each piece keeping its trailing newline; the final piece may lack
one; the empty string yields no pieces. -/
def splitInclusive : List Char → List (List Char)
  | [] => []
  | c :: cs =>
    if c = '\n' then [c] :: splitInclusive cs
    else
      match splitInclusive cs with
      | [] => [[c]]
      | l :: ls => (c :: l) :: ls

/-- `split_content` (mcp.rs:468-494): if the file fits in `max_lines`
return one blob with the original path, otherwise `ceil(total/max)` chunks
of `max_lines` lines each (the last possibly shorter), named
`<path>#chunk<i>of<n>` with 1-based `i`. -/
def split_content (path : String) (content : List Char) (max_lines : Nat) : List BlobItem :=
  let lines := splitInclusive content
  let total_lines := lines.length
  if total_lines ≤ max_lines then
    [⟨path, content⟩]
  else
    let num_chunks := (total_lines + max_lines - 1) / max_lines
    (List.range num_chunks).map (fun chunk_idx =>
      let start_line := chunk_idx * max_lines
      let end_line := min (start_line + max_lines) total_lines
      let chunk_lines := (lines.drop start_line).take (end_line - start_line)
      ⟨path ++ "#chunk" ++ Nat.repr (chunk_idx + 1) ++ "of" ++ Nat.repr num_chunks,
       chunk_lines.flatten⟩)

/-! ## Content addressing: SHA-256 over the incremental context interface

`sha256_hex` (mcp.rs:457-464) feeds the path bytes and then the content
bytes into one incremental SHA-256 context and hex-encodes the digest.
The context accumulates the byte stream exactly as `ring`'s streaming
digest does semantically, and `sha256Bytes` is FIPS 180-4 SHA-256. -/

/-- Truncate to a 32-bit word. -/
def w32 (x : Nat) : Nat := x % 4294967296

/-- 32-bit right rotation. -/
def rotr32 (n x : Nat) : Nat := w32 ((x >>> n) ||| (x <<< (32 - n)))

def shaCh (x y z : Nat) : Nat := (x &&& y) ^^^ ((x ^^^ 4294967295) &&& z)

def shaMaj (x y z : Nat) : Nat := (x &&& y) ^^^ (x &&& z) ^^^ (y &&& z)

def bigSigma0 (x : Nat) : Nat := rotr32 2 x ^^^ rotr32 13 x ^^^ rotr32 22 x

def bigSigma1 (x : Nat) : Nat := rotr32 6 x ^^^ rotr32 11 x ^^^ rotr32 25 x

def smallSigma0 (x : Nat) : Nat := rotr32 7 x ^^^ rotr32 18 x ^^^ (x >>> 3)

def smallSigma1 (x : Nat) : Nat := rotr32 17 x ^^^ rotr32 19 x ^^^ (x >>> 10)

/-- The 64 SHA-256 round constants (FIPS 180-4, in decimal). -/
def shaK : List Nat :=
  [1116352408, 1899447441, 3049323471, 3921009573, 961987163,
   1508970993, 2453635748, 2870763221, 3624381080, 310598401,
   607225278, 1426881987, 1925078388, 2162078206, 2614888103,
   3248222580, 3835390401, 4022224774, 264347078, 604807628,
   770255983, 1249150122, 1555081692, 1996064986, 2554220882,
   2821834349, 2952996808, 3210313671, 3336571891, 3584528711,
   113926993, 338241895, 666307205, 773529912, 1294757372,
   1396182291, 1695183700, 1986661051, 2177026350, 2456956037,
   2730485921, 2820302411, 3259730800, 3345764771, 3516065817,
   3600352804, 4094571909, 275423344, 430227734, 506948616,
   659060556, 883997877, 958139571, 1322822218, 1537002063,
   1747873779, 1955562222, 2024104815, 2227730452, 2361852424,
   2428436474, 2756734187, 3204031479, 3329325298]

/-- The SHA-256 initial hash value (FIPS 180-4, in decimal). -/
def shaH0 : List Nat :=
  [1779033703, 3144134277, 1013904242, 2773480762,
   1359893119, 2600822924, 528734635, 1541459225]

/-- Big-endian byte serialization of `v` into `n` bytes. -/
def beBytes (n v : Nat) : List Nat :=
  (List.range n).map (fun i => (v >>> (8 * (n - 1 - i))) &&& 255)

def bytesToWordBE (bs : List Nat) : Nat := bs.foldl (fun acc b => acc * 256 + b) 0

/-- The 16 initial 32-bit message-schedule words of a 64-byte block. -/
def blockWords (block : List Nat) : List Nat :=
  (List.range 16).map (fun i => bytesToWordBE ((block.drop (4 * i)).take 4))

/-- Extend the message schedule by `fuel` words (48 for SHA-256). -/
def schedExtend : List Nat → Nat → List Nat
  | w, 0 => w
  | w, fuel + 1 =>
    let t := w.length
    let nw := w32 (smallSigma1 (w.getD (t - 2) 0) + w.getD (t - 7) 0 +
      smallSigma0 (w.getD (t - 15) 0) + w.getD (t - 16) 0)
    schedExtend (w ++ [nw]) fuel

structure ShaState where
  a : Nat
  b : Nat
  c : Nat
  d : Nat
  e : Nat
  f : Nat
  g : Nat
  h : Nat
deriving DecidableEq

def shaRound (W : List Nat) (s : ShaState) (i : Nat) : ShaState :=
  let t1 := w32 (s.h + bigSigma1 s.e + shaCh s.e s.f s.g + shaK.getD i 0 + W.getD i 0)
  let t2 := w32 (bigSigma0 s.a + shaMaj s.a s.b s.c)
  ⟨w32 (t1 + t2), s.a, s.b, s.c, w32 (s.d + t1), s.e, s.f, s.g⟩

def compressBlock (hst : List Nat) (block : List Nat) : List Nat :=
  let W := schedExtend (blockWords block) 48
  let s0 : ShaState := ⟨hst.getD 0 0, hst.getD 1 0, hst.getD 2 0, hst.getD 3 0,
    hst.getD 4 0, hst.getD 5 0, hst.getD 6 0, hst.getD 7 0⟩
  let sf := (List.range 64).foldl (shaRound W) s0
  [w32 (s0.a + sf.a), w32 (s0.b + sf.b), w32 (s0.c + sf.c), w32 (s0.d + sf.d),
   w32 (s0.e + sf.e), w32 (s0.f + sf.f), w32 (s0.g + sf.g), w32 (s0.h + sf.h)]

/-- FIPS 180-4 padding: `0x80`, zeros to 56 mod 64, 64-bit big-endian bit length. -/
def padMsg (msg : List Nat) : List Nat :=
  let L := msg.length
  let zeros := (64 + 56 - (L + 1) % 64) % 64
  msg ++ 128 :: (List.replicate zeros 0 ++ beBytes 8 (8 * L))

def blocksGo : Nat → List Nat → List (List Nat)
  | 0, _ => []
  | _, [] => []
  | fuel + 1, l => l.take 64 :: blocksGo fuel (l.drop 64)

/-- SHA-256 digest (32 bytes) of a byte list. -/
def sha256Bytes (msg : List Nat) : List Nat :=
  let padded := padMsg msg
  let final := (blocksGo padded.length padded).foldl compressBlock shaH0
  (final.map (beBytes 4)).flatten

/-- Model of `ring::digest::Context`: semantically it digests the
concatenation of all bytes fed to `update`. -/
structure ShaContext where
  data : List Nat

def ShaContext.new : ShaContext := ⟨[]⟩

def ShaContext.update (ctx : ShaContext) (bytes : List Nat) : ShaContext :=
  ⟨ctx.data ++ bytes⟩

def ShaContext.finish (ctx : ShaContext) : List Nat := sha256Bytes ctx.data

def hexDigit (n : Nat) : Char := "0123456789abcdef".toList.getD n 'x'

def hexEncode (bytes : List Nat) : List Char :=
  (bytes.map (fun b => [hexDigit (b / 16), hexDigit (b % 16)])).flatten

/-- UTF-8 encoding of one scalar value (what Rust `str::as_bytes` yields). -/
def utf8Bytes (c : Char) : List Nat :=
  let n := c.toNat
  if n < 128 then [n]
  else if n < 2048 then [192 + n / 64, 128 + n % 64]
  else if n < 65536 then [224 + n / 4096, 128 + n / 64 % 64, 128 + n % 64]
  else [240 + n / 262144, 128 + n / 4096 % 64, 128 + n / 64 % 64, 128 + n % 64]

def strBytes (s : String) : List Nat := (s.toList.map utf8Bytes).flatten

def charsBytes (l : List Char) : List Nat := (l.map utf8Bytes).flatten

/-- `sha256_hex` (mcp.rs:457-464): update with the path bytes, then the
content bytes, and hex-encode the 256-bit digest. -/
def sha256_hex (path : String) (content : List Char) : String :=
  String.mk (hexEncode (((ShaContext.new.update (strBytes path)).update
    (charsBytes content)).finish))

/-! ## Exclusion matching (`should_exclude`, mcp.rs:513-543)

`globset` pattern matching with the default builder: `*` and `?` are
wildcards that may cross `/`, everything else is literal.  The matcher is
written with explicit fuel (one step per consumed pattern/text character,
which `globMatch` over-provisions) so it reduces in the kernel. -/

def globMatchGo : Nat → List Char → List Char → Bool
  | 0, _, _ => false
  | fuel + 1, p, s =>
    match p with
    | [] => s.isEmpty
    | pc :: ps =>
      if pc == '*' then
        globMatchGo fuel ps s ||
          (match s with
           | [] => false
           | _ :: s2 => globMatchGo fuel p s2)
      else
        match s with
        | [] => false
        | sc :: s2 => (pc == '?' || pc == sc) && globMatchGo fuel ps s2

def globMatch (p s : List Char) : Bool :=
  globMatchGo (p.length + s.length + 1) p s

/-- Segments of a root-relative path, as Rust `Path::iter` yields them
(split on the separator, empty components skipped). -/
def splitSegsGo : List Char → List Char → List (List Char)
  | acc, [] => [acc.reverse]
  | acc, c :: cs =>
    if c == '/' then acc.reverse :: splitSegsGo [] cs
    else splitSegsGo (c :: acc) cs

def splitSegs (path : List Char) : List (List Char) :=
  (splitSegsGo [] path).filter (fun seg => !seg.isEmpty)

/-- `should_exclude`: with no configured patterns nothing is excluded
(the glob set is `None`); otherwise the full slash-normalized relative
path is tested against every pattern, then every individual segment. -/
def should_exclude (rel : List Char) (patterns : List (List Char)) : Bool :=
  if patterns.isEmpty then false
  else if patterns.any (fun pat => globMatch pat rel) then true
  else (splitSegs rel).any (fun seg => patterns.any (fun pat => globMatch pat seg))

/-! ## Retry policy (`retry_request`, mcp.rs:297-340)

The request callback is modelled as a function from the attempt number to
that attempt's outcome; the result carries the final outcome, the number
of attempts actually made and the backoff delays (in milliseconds) slept
before each retry.  The Rust code computes the delay in `f64` as
`base * 2^(attempt-1)` seconds and converts to whole milliseconds; for
the call sites' base of 1.0/2.0 seconds and at most two retries these
values are exact powers of two, so `Nat` arithmetic is exact. -/

def startsWithL : List Char → List Char → Bool
  | [], _ => true
  | _ :: _, [] => false
  | n :: ns, h :: hs => n == h && startsWithL ns hs

def containsSub (needle : List Char) : List Char → Bool
  | [] => needle.isEmpty
  | c :: t => startsWithL needle (c :: t) || containsSub needle t

/-- The retryable-error classification: substring match against the
rendered error message. -/
def is_retryable (e : List Char) : Bool :=
  containsSub "timeout".toList e || containsSub "connection".toList e ||
    containsSub "network".toList e || containsSub "temporary".toList e

def fallbackRetryError : List Char := "未知错误".toList

def retry_go {α : Type} (f : Nat → Except (List Char) α)
    (max_retries base_ms : Nat) : Nat → Nat → Except (List Char) α × Nat × List Nat
  | attempt, 0 => (Except.error fallbackRetryError, attempt, [])
  | attempt, fuel + 1 =>
    match f attempt with
    | Except.ok v => (Except.ok v, attempt + 1, [])
    | Except.error e =>
      if attempt + 1 ≥ max_retries || !is_retryable e then
        (Except.error e, attempt + 1, [])
      else
        let rest := retry_go f max_retries base_ms (attempt + 1) fuel
        (rest.1, rest.2.1, base_ms * 2 ^ attempt :: rest.2.2)

/-- `retry_request`: the `while attempt < max_retries` loop, entered with
`attempt = 0`; the fuel equals the remaining loop iterations. -/
def retry_request {α : Type} (f : Nat → Except (List Char) α)
    (max_retries base_ms : Nat) : Except (List Char) α × Nat × List Nat :=
  retry_go f max_retries base_ms 0 max_retries

/-! ## Status records and the search-time policy (mcp.rs:221-275, 62-108) -/

inductive IndexStatus
  | Idle
  | Indexing
  | Synced
  | Failed
deriving DecidableEq

structure ProjectIndexStatus where
  status : IndexStatus
  progress : Nat
  total_files : Nat
  indexed_files : Nat
  pending_files : Nat
  last_error : Option String
  last_success_time : Option Nat
  last_failure_time : Option Nat
deriving DecidableEq

/-- The default record created on first observation of a project. -/
def defaultStatus : ProjectIndexStatus :=
  ⟨IndexStatus.Idle, 0, 0, 0, 0, none, none, none⟩

inductive InitialIndexState
  | Missing
  | Idle
  | Synced
  | Indexing
  | Failed
deriving DecidableEq

/-- `get_initial_index_state` (mcp.rs:236-246), as a function of the
stored record it reads. -/
def get_initial_index_state (status : ProjectIndexStatus) : InitialIndexState :=
  match status.status with
  | IndexStatus.Idle =>
    if status.total_files = 0 then InitialIndexState.Idle else InitialIndexState.Missing
  | IndexStatus.Synced => InitialIndexState.Synced
  | IndexStatus.Indexing => InitialIndexState.Indexing
  | IndexStatus.Failed => InitialIndexState.Failed

/-- `ensure_initial_index_background` (mcp.rs:250-275): in the
Missing/Idle/Failed states it spawns a detached indexing task and returns
`Ok(())`; in the Synced/Indexing states it does nothing and returns
`Ok(())`.  Every match arm yields `Ok`. -/
def ensure_initial_index_background (state : InitialIndexState) : Except String Unit :=
  match state with
  | InitialIndexState.Missing | InitialIndexState.Idle | InitialIndexState.Failed =>
    Except.ok ()
  | InitialIndexState.Synced | InitialIndexState.Indexing => Except.ok ()

def backgroundHint : String :=
  "\n\n💡 提示：当前项目索引尚未完全初始化，已在后台启动索引，稍后搜索结果会更完整。"

def waitHint (wait_secs : Nat) : String :=
  "\n\n💡 提示：检测到索引正在进行中，已等待 " ++ Nat.repr wait_secs ++
    " 秒以获取更完整的搜索结果。"

/-- The `hint_message` computed by `search_context` (mcp.rs:62-88). -/
def search_context_hint (state : InitialIndexState)
    (smart_wait_range : Option (Nat × Nat)) (wait_secs : Nat) : String :=
  match state with
  | InitialIndexState.Missing | InitialIndexState.Idle | InitialIndexState.Failed =>
    match ensure_initial_index_background state with
    | Except.error _ => ""
    | Except.ok _ => backgroundHint
  | InitialIndexState.Indexing =>
    match smart_wait_range with
    | some _ => waitHint wait_secs
    | none => ""
  | InitialIndexState.Synced => ""

/-- The final text assembly of `search_context` (mcp.rs:101-106). -/
def search_context_result (search_result hint : String) : String :=
  if hint.isEmpty then search_result else search_result ++ hint

/-! ## The `update_index` run (mcp.rs:635-880)

Effects are parameters: `collectRes` is the outcome of `collect_blobs`,
`batchRes i` the parsed `blob_names` list of batch `i`'s upload response
(`none` for transport failure / missing field; the code also treats an
empty list as a failed batch), `now` the clock.  The output records every
persisted status version in order (empty list = the status store was
never touched), the final registry, and the run's result. -/

structure AcemcpConfig where
  base_url : Option String
  token : Option String
  batch_size : Option Nat
  max_lines_per_blob : Option Nat
  text_extensions : Option (List String)
  exclude_patterns : Option (List String)
  smart_wait_range : Option (Nat × Nat)

inductive UpdateIndexError
  | noBaseUrl
  | invalidBaseUrl
  | noToken
  | collectFailed (msg : String)
  | noIndexableFiles
  | emptyAfterIndex
deriving DecidableEq

structure UpdateIndexOut where
  writes : List ProjectIndexStatus
  registry : List (String × List String)
  result : Except UpdateIndexError (List String)

def has_scheme (u : String) : Bool :=
  startsWithL "http://".toList u.toList || startsWithL "https://".toList u.toList

/-- Rust `str::trim`: strip whitespace from both ends (the ASCII
whitespace characters; Rust also strips rarer Unicode whitespace). -/
def trimChars (l : List Char) : List Char :=
  ((l.dropWhile Char.isWhitespace).reverse.dropWhile Char.isWhitespace).reverse

/-- The code's host check: `base_url.trim().len() > "https://".len()`
(byte lengths). -/
def has_host (u : String) : Bool :=
  decide ((strBytes "https://").length < (charsBytes (trimChars u.toList)).length)

def stIndexing (st : ProjectIndexStatus) : ProjectIndexStatus :=
  { st with status := IndexStatus.Indexing, progress := 0 }

def stNoFiles (st : ProjectIndexStatus) (now : Nat) : ProjectIndexStatus :=
  { st with
    status := IndexStatus.Failed
    last_error := some "未在项目中找到可索引的文本文件"
    last_failure_time := some now }

def stCollected (st : ProjectIndexStatus) (n : Nat) : ProjectIndexStatus :=
  { st with total_files := n, progress := 20 }

def stEmptyMerge (st : ProjectIndexStatus) (now : Nat) : ProjectIndexStatus :=
  { st with
    status := IndexStatus.Failed
    last_error := some "索引后未找到 blobs"
    last_failure_time := some now }

def stSynced (st : ProjectIndexStatus) (n now : Nat) : ProjectIndexStatus :=
  { st with
    status := IndexStatus.Synced
    progress := 100
    indexed_files := n
    pending_files := 0
    last_success_time := some now
    last_error := none }

/-- Identifiers of the collected blobs, deduplicated (the code builds a
`HashMap` keyed by hash; its iteration order is abstracted away). -/
def collect_ids (blobs : List BlobItem) : List String :=
  (blobs.map (fun b => sha256_hex b.path b.content)).dedup

/-- `existing_hashes`: current identifiers also present in the prior
registry entry. -/
def existing_ids (blobs : List BlobItem) (prior : List String) : List String :=
  (collect_ids blobs).filter (fun h => prior.contains h)

/-- `new_hashes`: current identifiers absent from the prior registry
entry.  Each resolves to one `new_blob` to upload. -/
def new_ids (blobs : List BlobItem) (prior : List String) : List String :=
  (collect_ids blobs).filter (fun h => !prior.contains h)

def num_batches (numNew batchSize : Nat) : Nat :=
  (numNew + batchSize - 1) / batchSize

/-- `uploaded_names`: concatenation, in batch order, of the names
returned by the successful batches (a batch with a missing or empty
`blob_names` list is failed and contributes nothing). -/
def uploaded_names (batchRes : Nat → Option (List String)) (total : Nat) :
    List String :=
  ((List.range total).map batchRes).foldl
    (fun acc r =>
      match r with
      | some names => if names.isEmpty then acc else acc ++ names
      | none => acc) []

/-- `projects.0.insert(normalized_root, all_blob_names)`. -/
def regInsert (reg : List (String × List String)) (k : String)
    (v : List String) : List (String × List String) :=
  (k, v) :: reg.filter (fun kv => kv.1 != k)

def update_index (cfg : AcemcpConfig) (st0 : ProjectIndexStatus)
    (reg0 : List (String × List String)) (root : String)
    (collectRes : Except String (List BlobItem))
    (batchRes : Nat → Option (List String)) (now : Nat) : UpdateIndexOut :=
  match cfg.base_url with
  | none => ⟨[], reg0, Except.error UpdateIndexError.noBaseUrl⟩
  | some base_url =>
    if !has_scheme base_url || !has_host base_url then
      ⟨[], reg0, Except.error UpdateIndexError.invalidBaseUrl⟩
    else
      match cfg.token with
      | none => ⟨[], reg0, Except.error UpdateIndexError.noToken⟩
      | some _ =>
        let batch_size := cfg.batch_size.getD 10
        let st1 := stIndexing st0
        match collectRes with
        | Except.error e => ⟨[st1], reg0, Except.error (UpdateIndexError.collectFailed e)⟩
        | Except.ok blobs =>
          if blobs.isEmpty then
            ⟨[st1, stNoFiles st1 now], reg0, Except.error UpdateIndexError.noIndexableFiles⟩
          else
            let st2 := stCollected st1 blobs.length
            let prior := (reg0.lookup root).getD []
            let merged := existing_ids blobs prior ++
              uploaded_names batchRes (num_batches (new_ids blobs prior).length batch_size)
            let reg1 := regInsert reg0 root merged
            if merged.isEmpty then
              ⟨[st1, st2, stEmptyMerge st2 now], reg1,
                Except.error UpdateIndexError.emptyAfterIndex⟩
            else
              ⟨[st1, st2, stSynced st2 blobs.length now], reg1, Except.ok merged⟩

/-- The configuration-validation predicate of `update_index`
(mcp.rs:635-641): `base_url` present, scheme-prefixed, trimmed byte
length above that of `"https://"`; `token` present. -/
def config_invalid (cfg : AcemcpConfig) : Bool :=
  match cfg.base_url with
  | none => true
  | some u => (!has_scheme u || !has_host u) || cfg.token.isNone

def is_config_error : UpdateIndexError → Bool
  | UpdateIndexError.noBaseUrl => true
  | UpdateIndexError.invalidBaseUrl => true
  | UpdateIndexError.noToken => true
  | _ => false

/-! ## Lemmas about `splitInclusive` and chunking -/

theorem splitInclusive_cons (c : Char) (cs : List Char) :
    splitInclusive (c :: cs) =
      if c = '\n' then [c] :: splitInclusive cs
      else
        match splitInclusive cs with
        | [] => [[c]]
        | l :: ls => (c :: l) :: ls := rfl

theorem splitInclusive_ne_nil (c : Char) (cs : List Char) :
    splitInclusive (c :: cs) ≠ [] := by
  rw [splitInclusive_cons]
  by_cases h : c = '\n'
  · simp [h]
  · rw [if_neg h]
    cases splitInclusive cs <;> simp

theorem splitInclusive_flatten (l : List Char) :
    (splitInclusive l).flatten = l := by
  induction l with
  | nil => rfl
  | cons c cs ih =>
    rw [splitInclusive_cons]
    by_cases h : c = '\n'
    · rw [if_pos h]
      simp [ih]
    · rw [if_neg h]
      cases hs : splitInclusive cs with
      | nil =>
        rw [hs] at ih
        simp at ih
        simp [← ih]
      | cons a as =>
        rw [hs] at ih
        simp only [List.flatten_cons] at ih ⊢
        simp [← ih]

theorem splitInclusive_self (l : List Char) :
    ∀ x ∈ splitInclusive l, splitInclusive x = [x] := by
  induction l with
  | nil => intro x hx; simp [splitInclusive] at hx
  | cons c cs ih =>
    intro x hx
    rw [splitInclusive_cons] at hx
    by_cases h : c = '\n'
    · rw [if_pos h] at hx
      rcases List.mem_cons.mp hx with hx | hx
      · subst hx
        rw [splitInclusive_cons, if_pos h]
        rfl
      · exact ih x hx
    · rw [if_neg h] at hx
      cases hs : splitInclusive cs with
      | nil =>
        rw [hs] at hx
        simp only [List.mem_singleton] at hx
        subst hx
        rw [splitInclusive_cons c [], if_neg h]
        rfl
      | cons a as =>
        rw [hs] at hx
        rcases List.mem_cons.mp hx with hx | hx
        · subst hx
          have ha : splitInclusive a = [a] := ih a (by rw [hs]; simp)
          rw [splitInclusive_cons c a, if_neg h, ha]
        · exact ih x (by rw [hs]; simp [hx])

theorem splitInclusive_dropLast_newline (l : List Char) :
    ∀ x ∈ (splitInclusive l).dropLast, x.getLast? = some '\n' := by
  induction l with
  | nil => intro x hx; simp [splitInclusive] at hx
  | cons c cs ih =>
    intro x hx
    rw [splitInclusive_cons] at hx
    by_cases h : c = '\n'
    · rw [if_pos h] at hx
      cases hs : splitInclusive cs with
      | nil => rw [hs] at hx; simp at hx
      | cons a as =>
        rw [hs] at hx
        rw [List.dropLast_cons₂] at hx
        rcases List.mem_cons.mp hx with hx | hx
        · subst hx; simp [h]
        · exact ih x (by rw [hs]; exact hx)
    · rw [if_neg h] at hx
      cases hs : splitInclusive cs with
      | nil => rw [hs] at hx; simp at hx
      | cons a as =>
        rw [hs] at hx
        cases as with
        | nil => simp at hx
        | cons a2 as2 =>
          rw [List.dropLast_cons₂] at hx
          rcases List.mem_cons.mp hx with hx | hx
          · subst hx
            have ha : a.getLast? = some '\n' := ih a (by rw [hs, List.dropLast_cons₂]; simp)
            cases a with
            | nil => simp at ha
            | cons b bs => simpa using ha
          · exact ih x (by rw [hs, List.dropLast_cons₂]; simp [hx])

theorem splitInclusive_append (A B : List Char) (h : A.getLast? = some '\n') :
    splitInclusive (A ++ B) = splitInclusive A ++ splitInclusive B := by
  induction A with
  | nil => simp at h
  | cons a A' ih =>
    cases A' with
    | nil =>
      have ha : a = '\n' := by simpa using h
      subst ha
      simp [splitInclusive_cons, splitInclusive]
    | cons b A'' =>
      have h' : (b :: A'').getLast? = some '\n' := by
        rwa [List.getLast?_cons_cons] at h
      have ihh := ih h'
      rw [List.cons_append, splitInclusive_cons a (b :: A'' ++ B),
        splitInclusive_cons a (b :: A'')]
      by_cases ha : a = '\n'
      · rw [if_pos ha, if_pos ha, ihh]
        simp
      · rw [if_neg ha, if_neg ha, ihh]
        cases hs : splitInclusive (b :: A'') with
        | nil => exact absurd hs (splitInclusive_ne_nil b A'')
        | cons l ls => simp

theorem splitInclusive_flatten_of (L : List (List Char))
    (h1 : ∀ x ∈ L, splitInclusive x = [x])
    (h2 : ∀ x ∈ L.dropLast, x.getLast? = some '\n') :
    splitInclusive L.flatten = L := by
  induction L with
  | nil => rfl
  | cons l L' ih =>
    cases L' with
    | nil =>
      simp only [List.flatten_cons, List.flatten_nil, List.append_nil]
      rw [h1 l (by simp)]
    | cons m L'' =>
      have hl : l.getLast? = some '\n' := h2 l (by rw [List.dropLast_cons₂]; simp)
      rw [List.flatten_cons, splitInclusive_append _ _ hl, h1 l (by simp)]
      rw [ih (fun x hx => h1 x (by simp [hx]))
        (fun x hx => h2 x (by rw [List.dropLast_cons₂]; simp [hx]))]
      simp

theorem mem_dropLast_slice {α : Type} (l : List α) (s k : Nat) :
    ∀ a ∈ ((l.drop s).take k).dropLast, a ∈ l.dropLast := by
  intro a ha
  rw [List.mem_iff_getElem] at ha
  obtain ⟨i, hi, hget⟩ := ha
  have hlen : ((l.drop s).take k).dropLast.length = min k (l.length - s) - 1 := by
    simp [List.length_dropLast, List.length_take, List.length_drop]
  rw [hlen] at hi
  have hi3 : s + i < l.length := by omega
  have hb : s + i < l.length - 1 := by omega
  have hval : a = l[s + i] := by
    rw [← hget, List.getElem_dropLast, List.getElem_take, List.getElem_drop]
  rw [List.mem_iff_getElem]
  refine ⟨s + i, by simpa [List.length_dropLast] using hb, ?_⟩
  rw [List.getElem_dropLast, ← hval]

theorem chunks_flatten {α : Type} (m : Nat) :
    ∀ (n : Nat) (l : List α), l.length ≤ n * m →
      ((List.range n).map (fun i => (l.drop (i * m)).take m)).flatten = l := by
  intro n
  induction n with
  | zero =>
    intro l hl
    simp at hl
    simp [hl]
  | succ n ih =>
    intro l hl
    rw [List.range_succ_eq_map]
    simp only [List.map_cons, List.map_map, List.flatten_cons, Nat.zero_mul, List.drop_zero]
    have hmap : ((List.range n).map ((fun i => (l.drop (i * m)).take m) ∘ Nat.succ)) =
        (List.range n).map (fun i => ((l.drop m).drop (i * m)).take m) := by
      refine List.map_congr_left (fun i _ => ?_)
      simp only [Function.comp_apply]
      rw [List.drop_drop]
      have hmm : m + i * m = Nat.succ i * m := by rw [Nat.succ_mul, Nat.add_comm]
      rw [hmm]
    rw [hmap, ih (l.drop m) ?_, List.take_append_drop]
    have h2 : l.length ≤ n * m + m := by rw [Nat.succ_mul] at hl; exact hl
    rw [List.length_drop]
    generalize n * m = K at h2 ⊢
    omega

theorem ceil_div_eq (a m : Nat) (ha : 0 < a) (hm : 0 < m) :
    (a + m - 1) / m = (a - 1) / m + 1 := by
  have h : a + m - 1 = (a - 1) + m := by omega
  rw [h, Nat.add_div_right _ hm]

theorem lt_div_succ_mul (x m : Nat) (hm : 0 < m) : x < (x / m + 1) * m := by
  have h := Nat.div_add_mod x m
  have h2 := Nat.mod_lt x hm
  calc x = m * (x / m) + x % m := h.symm
    _ < m * (x / m) + m := by omega
    _ = (x / m + 1) * m := by ring

theorem ceil_mul_ge (a m : Nat) (ha : 0 < a) (hm : 0 < m) :
    a ≤ ((a + m - 1) / m) * m := by
  rw [ceil_div_eq a m ha hm]
  have h := lt_div_succ_mul (a - 1) m hm
  generalize ((a - 1) / m + 1) * m = K at h ⊢
  omega

theorem ceil_pred_mul_lt (a m : Nat) (ha : 0 < a) (hm : 0 < m) :
    ((a + m - 1) / m - 1) * m < a := by
  rw [ceil_div_eq a m ha hm]
  simp only [Nat.add_sub_cancel]
  have h := Nat.div_mul_le_self (a - 1) m
  generalize (a - 1) / m * m = K at h ⊢
  omega

theorem flatten_map_flatten {α : Type} (L : List (List (List α))) :
    (L.map List.flatten).flatten = L.flatten.flatten := by
  induction L with
  | nil => rfl
  | cons x xs ih => simp [ih]

theorem take_min_eq {α : Type} (lines : List α) (m s : Nat) :
    (lines.drop s).take (min (s + m) lines.length - s) = (lines.drop s).take m := by
  by_cases h : s + m ≤ lines.length
  · rw [min_eq_left h]
    congr 1
    omega
  · rw [min_eq_right (by omega)]
    have h1 : (lines.drop s).length = lines.length - s := List.length_drop _ _
    rw [List.take_of_length_le (by omega), List.take_of_length_le (by omega)]

theorem split_content_eq_of_lt (path : String) (content : List Char) (m : Nat)
    (h : m < (splitInclusive content).length) :
    split_content path content m =
      (List.range (((splitInclusive content).length + m - 1) / m)).map (fun i =>
        ⟨path ++ "#chunk" ++ Nat.repr (i + 1) ++ "of" ++
           Nat.repr (((splitInclusive content).length + m - 1) / m),
         (((splitInclusive content).drop (i * m)).take
             (min (i * m + m) (splitInclusive content).length - i * m)).flatten⟩) := by
  simp only [split_content]
  rw [if_neg (not_le.mpr h)]

/-- Re-splitting the flattened content of any slice of the line list gives
back that slice of lines. -/
theorem splitInclusive_slice (content : List Char) (s k : Nat) :
    splitInclusive ((((splitInclusive content).drop s).take k).flatten) =
      ((splitInclusive content).drop s).take k := by
  apply splitInclusive_flatten_of
  · intro x hx
    exact splitInclusive_self content x
      (List.drop_subset _ _ (List.take_subset _ _ hx))
  · intro x hx
    exact splitInclusive_dropLast_newline content x
      (mem_dropLast_slice (splitInclusive content) s k x hx)

/-- C3: concatenating, in chunk order, the contents of the blobs produced
by `split_content` reconstructs the original content exactly. -/
theorem split_content_concat (path : String) (content : List Char) (m : Nat)
    (hm : 1 ≤ m) :
    ((split_content path content m).map (fun b => b.content)).flatten = content := by
  by_cases h : (splitInclusive content).length ≤ m
  · simp [split_content, h]
  · push_neg at h
    rw [split_content_eq_of_lt path content m h, List.map_map]
    have htot : 0 < (splitInclusive content).length := by omega
    have hle : (splitInclusive content).length ≤
        (((splitInclusive content).length + m - 1) / m) * m :=
      ceil_mul_ge _ m htot (by omega)
    have hmap : (List.range (((splitInclusive content).length + m - 1) / m)).map
          ((fun b : BlobItem => b.content) ∘ (fun i =>
            (⟨path ++ "#chunk" ++ Nat.repr (i + 1) ++ "of" ++
               Nat.repr (((splitInclusive content).length + m - 1) / m),
             (((splitInclusive content).drop (i * m)).take
                 (min (i * m + m) (splitInclusive content).length - i * m)).flatten⟩ :
               BlobItem))) =
        ((List.range (((splitInclusive content).length + m - 1) / m)).map
          (fun i => ((splitInclusive content).drop (i * m)).take m)).map
            List.flatten := by
      rw [List.map_map]
      refine List.map_congr_left (fun i _ => ?_)
      simp only [Function.comp_apply]
      rw [take_min_eq]
    rw [hmap, flatten_map_flatten, chunks_flatten m _ _ hle, splitInclusive_flatten]

/-- C9: `split_content` never returns an empty list, and for empty content
it returns exactly one blob carrying the original path and empty content. -/
theorem split_content_nonempty (path : String) (content : List Char) (m : Nat)
    (hm : 1 ≤ m) :
    split_content path content m ≠ [] ∧
      split_content path [] m = [⟨path, []⟩] := by
  constructor
  · by_cases h : (splitInclusive content).length ≤ m
    · simp [split_content, h]
    · push_neg at h
      rw [split_content_eq_of_lt path content m h]
      have hn : 0 < ((splitInclusive content).length + m - 1) / m :=
        Nat.div_pos (by omega) (by omega)
      rw [← List.length_pos]
      simpa using hn
  · simp [split_content, splitInclusive]

/-- C4: chunk-shape contract of `split_content`: a file within the limit is
a single blob with the original path; otherwise exactly
`ceil(total/maxLines)` chunks named `<path>#chunk<i>of<n>` (1-based `i`),
every chunk but possibly the last holding exactly `maxLines` lines, and a
file of `maxLines+1` lines giving 2 chunks whose second holds 1 line. -/
theorem split_content_chunk_shape (path : String) (content : List Char) (m : Nat)
    (hm : 1 ≤ m) :
    ((splitInclusive content).length ≤ m →
      split_content path content m = [⟨path, content⟩]) ∧
    (m < (splitInclusive content).length →
      (split_content path content m).length =
          ((splitInclusive content).length + m - 1) / m ∧
      (∀ i, (hi : i < (split_content path content m).length) →
        ((split_content path content m).get ⟨i, hi⟩).path =
          path ++ "#chunk" ++ Nat.repr (i + 1) ++ "of" ++
            Nat.repr (((splitInclusive content).length + m - 1) / m)) ∧
      (∀ i, (hi : i < (split_content path content m).length) →
        i + 1 < ((splitInclusive content).length + m - 1) / m →
        (splitInclusive ((split_content path content m).get ⟨i, hi⟩).content).length = m) ∧
      ((splitInclusive content).length = m + 1 →
        (split_content path content m).length = 2 ∧
        ∀ b, (split_content path content m)[1]? = some b →
          (splitInclusive b.content).length = 1)) := by
  constructor
  · intro h
    simp [split_content, h]
  · intro h
    have hsc := split_content_eq_of_lt path content m h
    have hlen : (split_content path content m).length =
        ((splitInclusive content).length + m - 1) / m := by
      rw [hsc]; simp
    refine ⟨hlen, ?_, ?_, ?_⟩
    · intro i hi
      have hi' : i < ((splitInclusive content).length + m - 1) / m := by
        rwa [hlen] at hi
      simp only [hsc, List.get_eq_getElem, List.getElem_map, List.getElem_range]
    · intro i hi hilt
      have hi' : i < ((splitInclusive content).length + m - 1) / m := by
        rwa [hlen] at hi
      simp only [hsc, List.get_eq_getElem, List.getElem_map, List.getElem_range]
      rw [take_min_eq, splitInclusive_slice]
      have htot : 0 < (splitInclusive content).length := by omega
      have hbound : i * m + m ≤ (splitInclusive content).length := by
        calc i * m + m = (i + 1) * m := (Nat.succ_mul i m).symm
          _ ≤ (((splitInclusive content).length + m - 1) / m - 1) * m :=
              Nat.mul_le_mul_right m (by omega)
          _ ≤ (splitInclusive content).length :=
              le_of_lt (ceil_pred_mul_lt _ m htot (by omega))
      rw [List.length_take, List.length_drop]
      omega
    · intro htot
      have hn2 : ((splitInclusive content).length + m - 1) / m = 2 := by
        have he : (splitInclusive content).length + m - 1 = m * 2 := by omega
        rw [he, Nat.mul_div_cancel_left 2 (by omega : 0 < m)]
      refine ⟨by rw [hlen, hn2], ?_⟩
      intro b hb
      rw [hsc] at hb
      have h1lt : 1 < ((splitInclusive content).length + m - 1) / m := by
        rw [hn2]
        omega
      simp only [List.getElem?_map, List.getElem?_range h1lt] at hb
      rw [Option.map_some'] at hb
      rw [Option.some_inj] at hb
      rw [← hb]
      simp only [take_min_eq]
      rw [splitInclusive_slice]
      rw [List.length_take, List.length_drop]
      omega

/-- Witness for C3: round trip at a concrete two-line content. -/
theorem split_content_concat_witness :
    (1 : Nat) ≤ 1 ∧
      ((split_content "p" ['a', '\n', 'b'] 1).map (fun b => b.content)).flatten =
        ['a', '\n', 'b'] :=
  ⟨by decide, split_content_concat "p" ['a', '\n', 'b'] 1 (by decide)⟩

/-- Witness for C9: concrete non-emptiness and the empty-content blob. -/
theorem split_content_nonempty_witness :
    (1 : Nat) ≤ 1 ∧ (split_content "p" ['a'] 1 ≠ [] ∧
      split_content "p" [] 1 = [⟨"p", []⟩]) :=
  ⟨by decide, split_content_nonempty "p" ['a'] 1 (by decide)⟩

/-- Witness for C4: the chunk-shape contract at a two-line content with
`maxLines = 1` (the `maxLines + 1` boundary case). -/
theorem split_content_chunk_shape_witness :
    (1 : Nat) ≤ 1 ∧
    (((splitInclusive ['a', '\n', 'b']).length ≤ 1 →
      split_content "p" ['a', '\n', 'b'] 1 = [⟨"p", ['a', '\n', 'b']⟩]) ∧
    (1 < (splitInclusive ['a', '\n', 'b']).length →
      (split_content "p" ['a', '\n', 'b'] 1).length =
          ((splitInclusive ['a', '\n', 'b']).length + 1 - 1) / 1 ∧
      (∀ i, (hi : i < (split_content "p" ['a', '\n', 'b'] 1).length) →
        ((split_content "p" ['a', '\n', 'b'] 1).get ⟨i, hi⟩).path =
          "p" ++ "#chunk" ++ Nat.repr (i + 1) ++ "of" ++
            Nat.repr (((splitInclusive ['a', '\n', 'b']).length + 1 - 1) / 1)) ∧
      (∀ i, (hi : i < (split_content "p" ['a', '\n', 'b'] 1).length) →
        i + 1 < ((splitInclusive ['a', '\n', 'b']).length + 1 - 1) / 1 →
        (splitInclusive
          ((split_content "p" ['a', '\n', 'b'] 1).get ⟨i, hi⟩).content).length = 1) ∧
      ((splitInclusive ['a', '\n', 'b']).length = 1 + 1 →
        (split_content "p" ['a', '\n', 'b'] 1).length = 2 ∧
        ∀ b, (split_content "p" ['a', '\n', 'b'] 1)[1]? = some b →
          (splitInclusive b.content).length = 1))) :=
  ⟨by decide, split_content_chunk_shape "p" ['a', '\n', 'b'] 1 (by decide)⟩

/-! ## Claim theorems: retry, exclusion, taxonomy, hashing, hints -/

/-- Full case characterization of `retry_request` at the upload call
site's arguments (3 attempts max, 1-second base delay). -/
theorem retry_request_three {α : Type} (f : Nat → Except (List Char) α) :
    retry_request f 3 1000 =
      match f 0 with
      | Except.error e0 =>
        if is_retryable e0 then
          match f 1 with
          | Except.error e1 =>
            if is_retryable e1 then
              match f 2 with
              | Except.error e2 => (Except.error e2, 3, [1000, 2000])
              | Except.ok v => (Except.ok v, 3, [1000, 2000])
            else (Except.error e1, 2, [1000])
          | Except.ok v => (Except.ok v, 2, [1000])
        else (Except.error e0, 1, [])
      | Except.ok v => (Except.ok v, 1, []) := by
  rcases h0 : f 0 with e0 | v0
  · rcases hr0 : is_retryable e0 with _ | _
    · simp [retry_request, retry_go, h0, hr0]
    · rcases h1 : f 1 with e1 | v1
      · rcases hr1 : is_retryable e1 with _ | _
        · simp [retry_request, retry_go, h0, hr0, h1, hr1]
        · rcases h2 : f 2 with e2 | v2 <;>
            simp [retry_request, retry_go, h0, hr0, h1, hr1, h2]
      · simp [retry_request, retry_go, h0, hr0, h1]
  · simp [retry_request, retry_go, h0]

/-- C5: with the upload call-site arguments (3 attempts, 1-second base),
`retry_request` makes at most 3 request attempts; the backoff delay slept
before retry number `j+1` is `1000 * 2^j` milliseconds, i.e. 1 second
times `2^(attempt-1)`; any reached attempt whose error is not retryable
ends the run immediately (no further attempt, no further delay); every
retry that did happen followed a retryable error; and a retryable
first-attempt error leads to a second attempt. -/
theorem retry_request_policy {α : Type} (f : Nat → Except (List Char) α) :
    (retry_request f 3 1000).2.1 ≤ 3 ∧
    ((retry_request f 3 1000).2.2 =
      (List.range (retry_request f 3 1000).2.2.length).map
        (fun j => 1000 * 2 ^ j)) ∧
    (∀ k e, k < (retry_request f 3 1000).2.1 → f k = Except.error e →
      is_retryable e = false →
      retry_request f 3 1000 =
        (Except.error e, k + 1, (List.range k).map (fun j => 1000 * 2 ^ j))) ∧
    (∀ k, k + 1 < (retry_request f 3 1000).2.1 →
      ∃ e, f k = Except.error e ∧ is_retryable e = true) ∧
    (∀ e, f 0 = Except.error e → is_retryable e = true →
      2 ≤ (retry_request f 3 1000).2.1) := by
  rw [retry_request_three f]
  refine ⟨?_, ?_, ?_, ?_, ?_⟩
  · rcases f 0 with e0 | v0 <;> rcases f 1 with e1 | v1 <;>
      rcases f 2 with e2 | v2 <;> dsimp only <;> (try split_ifs) <;> simp
  · rcases f 0 with e0 | v0 <;> rcases f 1 with e1 | v1 <;>
      rcases f 2 with e2 | v2 <;> dsimp only <;> (try split_ifs) <;>
      norm_num [List.range_succ]
  · rcases h0 : f 0 with e0 | v0
    · cases hr0 : is_retryable e0
      · simp only [hr0, Bool.false_eq_true, if_false]
        intro k e hk hfk hre
        interval_cases k
        rw [h0] at hfk
        injection hfk with he
        subst he
        simp
      · rcases h1 : f 1 with e1 | v1
        · cases hr1 : is_retryable e1
          · simp only [hr0, hr1, if_true, Bool.false_eq_true, if_false]
            intro k e hk hfk hre
            interval_cases k
            · rw [h0] at hfk
              injection hfk with he
              subst he
              simp [hr0] at hre
            · rw [h1] at hfk
              injection hfk with he
              subst he
              norm_num [List.range_succ]
          · rcases h2 : f 2 with e2 | v2 <;>
            · simp only [hr0, hr1, if_true]
              intro k e hk hfk hre
              interval_cases k
              · rw [h0] at hfk
                injection hfk with he
                subst he
                simp [hr0] at hre
              · rw [h1] at hfk
                injection hfk with he
                subst he
                simp [hr1] at hre
              · rw [h2] at hfk
                first
                | (injection hfk with he
                   subst he
                   norm_num [List.range_succ])
                | simp at hfk
        · simp only [hr0, if_true]
          intro k e hk hfk hre
          interval_cases k
          · rw [h0] at hfk
            injection hfk with he
            subst he
            simp [hr0] at hre
          · rw [h1] at hfk
            simp at hfk
    · intro k e hk hfk hre
      interval_cases k
      rw [h0] at hfk
      simp at hfk
  · rcases h0 : f 0 with e0 | v0
    · cases hr0 : is_retryable e0
      · simp only [hr0, Bool.false_eq_true, if_false]
        intro k hk
        omega
      · rcases h1 : f 1 with e1 | v1
        · cases hr1 : is_retryable e1
          · simp only [hr0, hr1, if_true, Bool.false_eq_true, if_false]
            intro k hk
            have hk0 : k = 0 := by omega
            subst hk0
            exact ⟨e0, h0, hr0⟩
          · rcases h2 : f 2 with e2 | v2 <;>
            · simp only [hr0, hr1, if_true]
              intro k hk
              have hk01 : k = 0 ∨ k = 1 := by omega
              rcases hk01 with rfl | rfl
              · exact ⟨e0, h0, hr0⟩
              · exact ⟨e1, h1, hr1⟩
        · simp only [hr0, if_true]
          intro k hk
          have hk0 : k = 0 := by omega
          subst hk0
          exact ⟨e0, h0, hr0⟩
    · (try dsimp only)
      intro k hk
      omega
  · intro e he hre
    rw [he]
    simp only [hre, if_true]
    rcases f 1 with e1 | v1 <;> rcases f 2 with e2 | v2 <;>
      dsimp only <;> (try split_ifs) <;> simp

/-- Witness for C5: attempt 0 is reached and its error is non-retryable,
so the run fails immediately with one attempt and no delays. -/
theorem retry_request_policy_witness :
    0 < (retry_request (fun _ => (Except.error "boom".toList :
        Except (List Char) Nat)) 3 1000).2.1 ∧
    retry_request (fun _ => (Except.error "boom".toList :
        Except (List Char) Nat)) 3 1000 =
      (Except.error "boom".toList, 0 + 1,
        (List.range 0).map (fun j => 1000 * 2 ^ j)) :=
  ⟨by decide,
   (retry_request_policy (fun _ => (Except.error "boom".toList :
     Except (List Char) Nat))).2.2.1 0 "boom".toList (by decide) rfl (by decide)⟩

/-- C6: a path is excluded iff its full root-relative slash-normalized
path, or at least one individual segment, matches at least one configured
glob pattern; `src/node_modules/x.js` is excluded by pattern
`node_modules` via the segment check although the full path does not
match the pattern. -/
theorem should_exclude_full_or_segment :
    (∀ (rel : List Char) (patterns : List (List Char)),
      should_exclude rel patterns = true ↔
        ((∃ pat ∈ patterns, globMatch pat rel = true) ∨
          ∃ seg ∈ splitSegs rel, ∃ pat ∈ patterns, globMatch pat seg = true)) ∧
    should_exclude "src/node_modules/x.js".toList ["node_modules".toList] = true ∧
    globMatch "node_modules".toList "src/node_modules/x.js".toList = false := by
  refine ⟨?_, by decide, by decide⟩
  intro rel patterns
  rw [should_exclude]
  split_ifs with hp hfull
  · constructor
    · intro hc
      simp at hc
    · intro hc
      have hpl : patterns = [] := by simpa using hp
      subst hpl
      rcases hc with ⟨pat, hmem, _⟩ | ⟨seg, hseg, pat, hmem, _⟩ <;> simp at hmem
  · constructor
    · intro _
      left
      simpa using hfull
    · intro _
      rfl
  · constructor
    · intro hc
      right
      simpa using hc
    · rintro (h1 | h2)
      · exact absurd (by simpa using h1) hfull
      · simpa using h2

/-- Witness for C6: the segment-side disjunct holds at the spec's
example. -/
theorem should_exclude_full_or_segment_witness :
    (∃ pat ∈ (["node_modules".toList] : List (List Char)),
        globMatch pat "src/node_modules/x.js".toList = true) ∨
      ∃ seg ∈ splitSegs "src/node_modules/x.js".toList,
        ∃ pat ∈ (["node_modules".toList] : List (List Char)),
          globMatch pat seg = true :=
  (should_exclude_full_or_segment.1 "src/node_modules/x.js".toList
    ["node_modules".toList]).mp (by decide)

/-- C7: the derived search-time state is Idle for a stored Idle record
with `total_files = 0`, Missing for a stored Idle record with
`total_files > 0`, and Indexing/Synced/Failed follow the stored status
regardless of `total_files`. -/
theorem initial_index_state_taxonomy (st : ProjectIndexStatus) :
    (st.status = IndexStatus.Idle ∧ st.total_files = 0 →
      get_initial_index_state st = InitialIndexState.Idle) ∧
    (st.status = IndexStatus.Idle ∧ 0 < st.total_files →
      get_initial_index_state st = InitialIndexState.Missing) ∧
    (st.status = IndexStatus.Indexing →
      get_initial_index_state st = InitialIndexState.Indexing) ∧
    (st.status = IndexStatus.Synced →
      get_initial_index_state st = InitialIndexState.Synced) ∧
    (st.status = IndexStatus.Failed →
      get_initial_index_state st = InitialIndexState.Failed) := by
  refine ⟨?_, ?_, ?_, ?_, ?_⟩
  · rintro ⟨h1, h2⟩
    simp [get_initial_index_state, h1, h2]
  · rintro ⟨h1, h2⟩
    have h3 : st.total_files ≠ 0 := by omega
    simp [get_initial_index_state, h1, h3]
  · intro h
    simp [get_initial_index_state, h]
  · intro h
    simp [get_initial_index_state, h]
  · intro h
    simp [get_initial_index_state, h]

/-- Witness for C7: a stored Idle record with 5 files derives Missing. -/
theorem initial_index_state_taxonomy_witness :
    get_initial_index_state ⟨IndexStatus.Idle, 0, 5, 0, 0, none, none, none⟩ =
      InitialIndexState.Missing :=
  (initial_index_state_taxonomy _).2.1 ⟨rfl, by decide⟩

/-- C8: the blob identifier depends only on the byte sequence
path-bytes ++ content-bytes fed into the digest context: any two
(path, content) pairs with equal concatenations get equal identifiers. -/
theorem sha256_hex_concat_only (p p' : String) (c c' : List Char)
    (h : strBytes p ++ charsBytes c = strBytes p' ++ charsBytes c') :
    sha256_hex p c = sha256_hex p' c' := by
  unfold sha256_hex ShaContext.finish ShaContext.update ShaContext.new
  simp only [List.nil_append]
  rw [h]

/-- Witness for C8: ("ab", "c") and ("a", "bc") concatenate to the same
bytes and receive the same identifier. -/
theorem sha256_hex_concat_only_witness :
    strBytes "ab" ++ charsBytes "c".toList =
        strBytes "a" ++ charsBytes "bc".toList ∧
      sha256_hex "ab" "c".toList = sha256_hex "a" "bc".toList :=
  ⟨by decide, sha256_hex_concat_only "ab" "a" "c".toList "bc".toList (by decide)⟩

/-- C10: `ensure_initial_index_background` returns `Ok` for every derived
state, so in the Missing/Idle/Failed branch of `search_context` the
error path never suppresses the hint and the background-indexing hint is
always appended to the search result. -/
theorem background_index_hint :
    (∀ s, ensure_initial_index_background s = Except.ok ()) ∧
    (∀ (s : InitialIndexState) (range : Option (Nat × Nat)) (w : Nat) (sr : String),
      s = InitialIndexState.Missing ∨ s = InitialIndexState.Idle ∨
          s = InitialIndexState.Failed →
      search_context_result sr (search_context_hint s range w) =
        sr ++ backgroundHint) := by
  constructor
  · intro s
    cases s <;> rfl
  · intro s range w sr hs
    have hne : backgroundHint.isEmpty = false := by decide
    rcases hs with rfl | rfl | rfl <;>
      simp [search_context_hint, search_context_result,
        ensure_initial_index_background, hne]

/-- Witness for C10: the hint is appended in the Missing state. -/
theorem background_index_hint_witness :
    search_context_result "R"
        (search_context_hint InitialIndexState.Missing (some (1, 5)) 3) =
      "R" ++ backgroundHint :=
  background_index_hint.2 InitialIndexState.Missing (some (1, 5)) 3 "R" (Or.inl rfl)

/-! ## Claim theorems: `update_index` -/

/-- C2 (amended): `update_index` returns a configuration error without
writing the status record exactly when `base_url` is missing, not
`http://`/`https://`-prefixed, or has trimmed byte length at most that of
`"https://"`, or `token` is missing; otherwise the run writes the status
record, first setting it to Indexing with progress 0.  (The code's host
check is on trimmed length, not host emptiness; see the counterexample.)
A configuration failure also leaves the registry untouched. -/
theorem update_index_config_gate (cfg : AcemcpConfig) (st0 : ProjectIndexStatus)
    (reg0 : List (String × List String)) (root : String)
    (collectRes : Except String (List BlobItem))
    (batchRes : Nat → Option (List String)) (now : Nat) :
    (config_invalid cfg = true ↔
      ((update_index cfg st0 reg0 root collectRes batchRes now).writes = [] ∧
        ∃ e, (update_index cfg st0 reg0 root collectRes batchRes now).result =
            Except.error e ∧ is_config_error e = true)) ∧
    (config_invalid cfg = false →
      (update_index cfg st0 reg0 root collectRes batchRes now).writes.head? =
        some (stIndexing st0)) ∧
    (config_invalid cfg = true →
      (update_index cfg st0 reg0 root collectRes batchRes now).registry = reg0) := by
  rcases hb : cfg.base_url with _ | u
  · simp [update_index, config_invalid, hb, is_config_error]
  · cases hv : (!has_scheme u || !has_host u)
    · rcases ht : cfg.token with _ | tok
      · simp [update_index, config_invalid, hb, hv, ht, is_config_error]
      · rcases hc : collectRes with em | blobs
        · simp [update_index, config_invalid, hb, hv, ht, hc, is_config_error]
        · cases hbe : blobs.isEmpty
          · simp only [update_index, config_invalid, hb, hv, ht, hc, hbe]
            split_ifs <;>
              simp_all [is_config_error]
          · simp [update_index, config_invalid, hb, hv, ht, hc, hbe, is_config_error]
    · simp [update_index, config_invalid, hb, hv, is_config_error]

/-- Witness for C2 (amended): a fully valid configuration writes
Indexing first. -/
theorem update_index_config_gate_witness :
    config_invalid ⟨some "http://example.com", some "t", none, none, none,
        none, none⟩ = false ∧
      (update_index ⟨some "http://example.com", some "t", none, none, none,
          none, none⟩ defaultStatus [] "r" (Except.ok [⟨"f.txt", ['a']⟩])
          (fun _ => some ["n1"]) 0).writes.head? =
        some (stIndexing defaultStatus) :=
  ⟨by decide, (update_index_config_gate _ defaultStatus [] "r"
    (Except.ok [⟨"f.txt", ['a']⟩]) (fun _ => some ["n1"]) 0).2.1 (by decide)⟩

/-- Counterexample for C2 as stated: `"http://a"` is scheme-prefixed with
the non-empty host portion `"a"`, and the token is present, yet
`update_index` reports a configuration error without touching the status
record, because the code's check demands trimmed length strictly above
`"https://".len() = 8`. -/
theorem update_index_host_counterexample :
    ("http://a".toList.drop 7 = "a".toList ∧ has_scheme "http://a" = true ∧
      config_invalid ⟨some "http://a", some "t", none, none, none, none,
        none⟩ = true) ∧
    (update_index ⟨some "http://a", some "t", none, none, none, none, none⟩
        defaultStatus [] "r" (Except.ok [⟨"f.txt", ['a']⟩])
        (fun _ => some ["n1"]) 0).writes = [] ∧
    (update_index ⟨some "http://a", some "t", none, none, none, none, none⟩
        defaultStatus [] "r" (Except.ok [⟨"f.txt", ['a']⟩])
        (fun _ => some ["n1"]) 0).result =
      Except.error UpdateIndexError.invalidBaseUrl := by
  refine ⟨⟨by decide, by decide, by decide⟩, ?_, ?_⟩ <;> rfl

/-- C1: on every successful run of `update_index`, the persisted registry
entry for the canonicalized root equals the returned list, whose members
are exactly the identifiers both in the prior entry and among the
identifiers of the currently collected blobs, united with the names
returned by this run's successful upload batches; any prior identifier
not recomputed from the current collection (and not among the uploaded
names) is dropped. -/
theorem update_index_registry_merge (cfg : AcemcpConfig)
    (st0 : ProjectIndexStatus) (reg0 : List (String × List String))
    (root : String) (blobs : List BlobItem)
    (batchRes : Nat → Option (List String)) (now : Nat)
    (names prior uploaded : List String)
    (hprior : prior = (reg0.lookup root).getD [])
    (hup : uploaded = uploaded_names batchRes
      (num_batches (new_ids blobs prior).length (cfg.batch_size.getD 10)))
    (hok : (update_index cfg st0 reg0 root (Except.ok blobs) batchRes
      now).result = Except.ok names) :
    ((update_index cfg st0 reg0 root (Except.ok blobs) batchRes
        now).registry.lookup root = some names) ∧
    (∀ x, x ∈ names ↔
      ((x ∈ prior ∧ x ∈ blobs.map (fun b => sha256_hex b.path b.content)) ∨
        x ∈ uploaded)) ∧
    (∀ a, a ∈ prior → a ∉ blobs.map (fun b => sha256_hex b.path b.content) →
      a ∉ uploaded → a ∉ names) := by
  subst hprior
  subst hup
  rcases hb : cfg.base_url with _ | u
  · simp [update_index, hb] at hok
  · cases hv : (!has_scheme u || !has_host u)
    · rcases ht : cfg.token with _ | tok
      · simp [update_index, hb, hv, ht] at hok
      · cases hbe : blobs.isEmpty
        · simp only [update_index, hb, hv, ht, hbe] at hok ⊢
          simp only [Bool.false_eq_true, if_false] at hok ⊢
          obtain ⟨M, hM⟩ : ∃ M, existing_ids blobs ((reg0.lookup root).getD []) ++
              uploaded_names batchRes (num_batches
                (new_ids blobs ((reg0.lookup root).getD [])).length
                (cfg.batch_size.getD 10)) = M := ⟨_, rfl⟩
          rw [hM] at hok ⊢
          cases hme : M.isEmpty
          · simp only [hme, Bool.false_eq_true, if_false] at hok ⊢
            simp only [Except.ok.injEq] at hok
            subst hok
            have hmem : ∀ x, x ∈ M ↔
                ((x ∈ (reg0.lookup root).getD [] ∧
                  x ∈ blobs.map (fun b => sha256_hex b.path b.content)) ∨
                  x ∈ uploaded_names batchRes (num_batches
                    (new_ids blobs ((reg0.lookup root).getD [])).length
                    (cfg.batch_size.getD 10))) := by
              intro x
              rw [← hM]
              simp only [List.mem_append, existing_ids, collect_ids,
                List.mem_filter, List.mem_dedup]
              constructor
              · rintro (⟨hcur, hpri⟩ | hu)
                · exact Or.inl ⟨by simpa using hpri, hcur⟩
                · exact Or.inr hu
              · rintro (⟨hpri, hcur⟩ | hu)
                · exact Or.inl ⟨hcur, by simpa using hpri⟩
                · exact Or.inr hu
            refine ⟨?_, hmem, ?_⟩
            · simp [regInsert, List.lookup]
            · intro a ha hnc hnu hmemn
              rcases (hmem a).mp hmemn with ⟨_, hcur⟩ | hu
              · exact hnc hcur
              · exact hnu hu
          · simp only [hme, if_true] at hok
            simp at hok
        · simp [update_index, hb, hv, ht, hbe] at hok
    · simp [update_index, hb, hv] at hok

/-- Witness for C1: a fresh project (empty prior registry), one collected
blob, one successful batch returning name "n1"; the persisted entry and
returned list are exactly ["n1"]. -/
theorem update_index_registry_merge_witness :
    ((update_index ⟨some "http://example.com", some "t", none, none, none,
        none, none⟩ defaultStatus [] "r" (Except.ok [⟨"f.txt", ['a']⟩])
        (fun _ => some ["n1"]) 0).result = Except.ok ["n1"]) ∧
    ((update_index ⟨some "http://example.com", some "t", none, none, none,
        none, none⟩ defaultStatus [] "r" (Except.ok [⟨"f.txt", ['a']⟩])
        (fun _ => some ["n1"]) 0).registry.lookup "r" = some ["n1"] ∧
      (∀ x, x ∈ (["n1"] : List String) ↔
        ((x ∈ ([] : List String) ∧
          x ∈ [(⟨"f.txt", ['a']⟩ : BlobItem)].map
            (fun b => sha256_hex b.path b.content)) ∨
          x ∈ uploaded_names (fun _ => some ["n1"])
            (num_batches (new_ids [⟨"f.txt", ['a']⟩] []).length 10))) ∧
      (∀ a, a ∈ ([] : List String) →
        a ∉ [(⟨"f.txt", ['a']⟩ : BlobItem)].map
          (fun b => sha256_hex b.path b.content) →
        a ∉ uploaded_names (fun _ => some ["n1"])
          (num_batches (new_ids [⟨"f.txt", ['a']⟩] []).length 10) →
        a ∉ (["n1"] : List String))) :=
  ⟨rfl, update_index_registry_merge _ defaultStatus [] "r" _ _ 0 ["n1"] [] _
    rfl rfl rfl⟩

end Acemcp
